import Mathlib

/-!
Verification development for the `levelang-mcp` repository: a shallow
embedding, in Lean, of the API-key auth middleware (`auth.py`), the
environment-key parsing (`config.py`), the backend client contract
(`client.py`), and the tool-orchestration layer (`server.py`,
`formatting.py`), together with theorems settling the specification's
claims about them.

Python strings are modelled as Lean `String`s (lists of characters where
character-level reasoning is needed); JSON values returned by the backend
are modelled by an explicit `Json` inductive; Python code that can raise
is modelled in `Except PyErr`.
-/

/-! ## Python whitespace and `str.strip` -/

/-- Characters stripped by Python's `str.strip()` / `str.rstrip()`
(ASCII whitespace plus the Unicode whitespace characters recognised by
`str.isspace`). -/
def pySpaceChars : List Char :=
  [' ', '\t', '\n', '\x0d', '\x0b', '\x0c',
   '\x1c', '\x1d', '\x1e', '\x1f', '\x85', '\xa0',
   ' ', ' ', ' ', ' ', ' ', ' ', ' ',
   ' ', ' ', ' ', ' ', ' ', ' ', ' ',
   ' ', ' ', '　']

/-- Whether Python's `str.strip()` treats `c` as whitespace. -/
def isPySpace (c : Char) : Bool := c ∈ pySpaceChars

/-- Python `s.strip()` on a list of characters: drop whitespace from the
front, then from the back. -/
def pyStripChars (l : List Char) : List Char :=
  List.rdropWhile isPySpace (List.dropWhile isPySpace l)

/-- Python `s.rstrip()` on a list of characters. -/
def pyRstripChars (l : List Char) : List Char :=
  List.rdropWhile isPySpace l

/-- `server.py`'s `_sanitize_text`: `return text.strip()`. -/
def sanitizeText (text : String) : String :=
  String.mk (pyStripChars text.data)

lemma pyStripChars_head_not (l : List Char) :
    List.dropWhile isPySpace (pyStripChars l) = pyStripChars l := by
  unfold pyStripChars
  rcases h : List.rdropWhile isPySpace (List.dropWhile isPySpace l) with _ | ⟨a, t⟩
  · simp
  · have hpre : List.rdropWhile isPySpace (List.dropWhile isPySpace l) <+:
        List.dropWhile isPySpace l := List.rdropWhile_prefix _ _
    rw [h] at hpre
    rcases hpre with ⟨suf, hsuf⟩
    have hhead : (List.dropWhile isPySpace l).head? = some a := by
      rw [← hsuf]; rfl
    have hnot : ¬ isPySpace a = true := by
      have := List.head?_dropWhile_not isPySpace l
      rw [hhead] at this
      simpa using this
    simp [List.dropWhile_cons, hnot]

/-- `strip` is idempotent. -/
lemma pyStripChars_idempotent (l : List Char) :
    pyStripChars (pyStripChars l) = pyStripChars l := by
  conv_lhs => rw [pyStripChars, pyStripChars_head_not l]
  exact List.rdropWhile_idempotent _ _

/-- Decomposition: a list is whitespace, then its strip, then whitespace. -/
lemma pyStripChars_decomp (l : List Char) :
    ∃ pre suf, l = pre ++ pyStripChars l ++ suf ∧
      (∀ c ∈ pre, isPySpace c = true) ∧ (∀ c ∈ suf, isPySpace c = true) := by
  have h1 : l = List.takeWhile isPySpace l ++ List.dropWhile isPySpace l :=
    (List.takeWhile_append_dropWhile ..).symm
  have hpre : pyStripChars l <+: List.dropWhile isPySpace l :=
    List.rdropWhile_prefix _ _
  rcases hpre with ⟨suf, hsuf⟩
  refine ⟨List.takeWhile isPySpace l, suf, ?_, ?_, ?_⟩
  · rw [List.append_assoc, hsuf]; exact h1
  · intro c hc; exact List.mem_takeWhile_imp hc
  · intro c hc
    have hmem : c ∈ List.dropWhile isPySpace l := by
      rw [← hsuf]; exact List.mem_append_right _ hc
    -- every element of the dropped tail segment is whitespace:
    -- `suf` is exactly the part removed by `rdropWhile`.
    have : List.dropWhile isPySpace l =
        pyStripChars l ++ suf := hsuf.symm
    -- show `suf` consists of whitespace via the reverse view
    have hrev : (List.dropWhile isPySpace l).reverse =
        suf.reverse ++ (pyStripChars l).reverse := by
      rw [this, List.reverse_append]
    have hsufrev : ∀ c ∈ suf.reverse, isPySpace c = true := by
      -- `rdropWhile` removes exactly the maximal whitespace suffix;
      -- equivalently `dropWhile` on the reverse removes `suf.reverse`.
      have hdw : List.dropWhile isPySpace (List.dropWhile isPySpace l).reverse =
          (pyStripChars l).reverse := by
        unfold pyStripChars List.rdropWhile
        rw [List.reverse_reverse]
      have htw : List.takeWhile isPySpace (List.dropWhile isPySpace l).reverse =
          suf.reverse := by
        have h2 : List.takeWhile isPySpace (List.dropWhile isPySpace l).reverse ++
            (pyStripChars l).reverse = (List.dropWhile isPySpace l).reverse := by
          conv_rhs => rw [← List.takeWhile_append_dropWhile
            (p := isPySpace) (l := (List.dropWhile isPySpace l).reverse)]
          rw [hdw]
        have h3 := h2.trans hrev
        exact List.append_cancel_right h3
      intro c hc
      rw [← htw] at hc
      exact List.mem_takeWhile_imp hc
    exact hsufrev c (List.mem_reverse.mpr hc)

/-! ## JSON values and Python dynamic operations -/

/-- Parsed JSON values, as produced by `response.json()`.  Numbers are
modelled as integers (the backend's numeric fields are integral). -/
inductive Json where
  | null : Json
  | bool (b : Bool) : Json
  | int (n : Int) : Json
  | str (s : String) : Json
  | arr (xs : List Json) : Json
  | obj (kvs : List (String × Json)) : Json

/-- Python truthiness (`if x:`) of a parsed JSON value. -/
def pyTruthy : Json → Bool
  | .null => false
  | .bool b => b
  | .int n => n != 0
  | .str s => s != ""
  | .arr xs => !xs.isEmpty
  | .obj kvs => !kvs.isEmpty

mutual
/-- Python `repr()` of a parsed JSON value (string escaping inside
`repr` of a string is not modelled). -/
def pyRepr : Json → String
  | .null => "None"
  | .bool b => if b then "True" else "False"
  | .int n => toString n
  | .str s => String.mk [Char.ofNat 39] ++ s ++ String.mk [Char.ofNat 39]
  | .arr xs => "[" ++ pyReprList xs ++ "]"
  | .obj kvs => "\x7b" ++ pyReprObj kvs ++ "\x7d"

/-- The comma-separated element renderings of a Python list `repr`. -/
def pyReprList : List Json → String
  | [] => ""
  | [x] => pyRepr x
  | x :: rest => pyRepr x ++ ", " ++ pyReprList rest

/-- The comma-separated entry renderings of a Python dict `repr`. -/
def pyReprObj : List (String × Json) → String
  | [] => ""
  | [(k, v)] => String.mk [Char.ofNat 39] ++ k ++ String.mk [Char.ofNat 39] ++ ": " ++ pyRepr v
  | (k, v) :: rest =>
      String.mk [Char.ofNat 39] ++ k ++ String.mk [Char.ofNat 39] ++ ": " ++ pyRepr v
        ++ ", " ++ pyReprObj rest
end

/-- Python `str()` of a parsed JSON value (as interpolated by f-strings). -/
def pyStr : Json → String
  | .str s => s
  | v => pyRepr v

mutual
/-- Python `==` between parsed JSON values, as used by `in` on lists.
Structural comparison is faithful for the comparisons performed by the
code (a string is `==` to no non-string JSON value). -/
def jsonBeq : Json → Json → Bool
  | .null, .null => true
  | .bool a, .bool b => a == b
  | .int a, .int b => a == b
  | .str a, .str b => a == b
  | .arr a, .arr b => jsonBeqList a b
  | .obj a, .obj b => jsonBeqObj a b
  | _, _ => false

/-- Elementwise `==` for JSON arrays. -/
def jsonBeqList : List Json → List Json → Bool
  | [], [] => true
  | a :: as', b :: bs' => jsonBeq a b && jsonBeqList as' bs'
  | _, _ => false

/-- Entrywise `==` for JSON objects. -/
def jsonBeqObj : List (String × Json) → List (String × Json) → Bool
  | [], [] => true
  | (k, v) :: as', (k2, v2) :: bs' => k == k2 && jsonBeq v v2 && jsonBeqObj as' bs'
  | _, _ => false
end

/-- Python exceptions raised by the code under consideration.  An
`httpStatusError` carries the `httpx` response the handlers inspect. -/
structure HttpResponse where
  statusCode : Nat
  text : String
  /-- Result of calling `.json()` on the response: `some v` when the body
  parses as JSON, `none` when parsing raises `JSONDecodeError`. -/
  jsonBody : Option Json

inductive PyErr where
  | httpStatusError (response : HttpResponse) : PyErr
  | timeoutException : PyErr
  | connectError : PyErr
  | jsonDecodeError : PyErr
  | attributeError : PyErr
  | keyError (key : String) : PyErr
  | typeError (msg : String) : PyErr
  | otherError (msg : String) : PyErr

/-- Python `str(e)` of an exception (modelled rendering; `otherError`
carries its message verbatim, as `Exception("msg")` does). -/
def pyErrStr : PyErr → String
  | .httpStatusError resp => "HTTP status error " ++ toString resp.statusCode
  | .timeoutException => "TimeoutException"
  | .connectError => "ConnectError"
  | .jsonDecodeError => "JSONDecodeError"
  | .attributeError => "AttributeError"
  | .keyError key => String.mk [Char.ofNat 39] ++ key ++ String.mk [Char.ofNat 39]
  | .typeError msg => msg
  | .otherError msg => msg

/-- Python `x.get(key, default)`: raises `AttributeError` when `x` is not
a dict. -/
def dictGet (j : Json) (key : String) (default : Json) : Except PyErr Json :=
  match j with
  | .obj kvs => .ok ((kvs.lookup key).getD default)
  | _ => .error .attributeError

/-- Python `x[key]`: `KeyError` when absent, `TypeError` when `x` is not
a dict. -/
def subscriptGet (j : Json) (key : String) : Except PyErr Json :=
  match j with
  | .obj kvs =>
      match kvs.lookup key with
      | some v => .ok v
      | none => .error (.keyError key)
  | _ => .error (.typeError "object is not subscriptable")

/-- Extract the strings of a list of JSON values, or `none` if any value
is not a string (as `str.join` requires). -/
def allStrings : List Json → Option (List String)
  | [] => some []
  | .str s :: rest => (allStrings rest).map (s :: ·)
  | _ :: _ => none

/-- Characters of `"\n".join(...)` over character lists. -/
def joinNlChars : List (List Char) → List Char
  | [] => []
  | s :: rest =>
      match rest with
      | [] => s
      | _ :: _ => s ++ '\n' :: joinNlChars rest

/-- Python `"\n".join(lines)` for string lines. -/
def strJoinNl (lines : List String) : String :=
  String.mk (joinNlChars (lines.map String.data))

/-- Python `", ".join(strs)`. -/
def joinCommaStr : List String → String
  | [] => ""
  | [s] => s
  | s :: rest => s ++ ", " ++ joinCommaStr rest

/-- Python `", ".join(xs)` over JSON values: `TypeError` unless every
element is a string. -/
def joinCommaJson (xs : List Json) : Except PyErr String :=
  match allStrings xs with
  | some strs => .ok (joinCommaStr strs)
  | none => .error (.typeError "sequence item: expected str instance")

/-- ASCII uppercase of a character (sufficient for the level/mood codes
the code capitalizes). -/
def asciiUpper (c : Char) : Char :=
  if 'a' ≤ c ∧ c ≤ 'z' then Char.ofNat (c.toNat - 32) else c

/-- ASCII lowercase of a character. -/
def asciiLower (c : Char) : Char :=
  if 'A' ≤ c ∧ c ≤ 'Z' then Char.ofNat (c.toNat + 32) else c

/-- Python `s.capitalize()`: first character uppercased, the rest
lowercased. -/
def pyCapitalize (s : String) : String :=
  match s.data with
  | [] => ""
  | c :: rest => String.mk (asciiUpper c :: rest.map asciiLower)

/-! ## `config.py`: parsing the inbound API key set -/

/-- Python `s.split(",")` (no maxsplit) over character lists. -/
def splitOnComma : List Char → List (List Char)
  | [] => [[]]
  | c :: rest =>
      if c = ',' then [] :: splitOnComma rest
      else
        match splitOnComma rest with
        | [] => [[c]]
        | g :: gs => (c :: g) :: gs

/-- `config.py`'s `_parse_api_keys`: `None` or empty means auth disabled;
otherwise split on commas, strip each entry, discard empties.  The
resulting `frozenset` is modelled by the list of its members. -/
def parseApiKeys (raw : Option String) : List (List Char) :=
  match raw with
  | none => []
  | some s =>
      if s = "" then []
      else ((splitOnComma s.data).map pyStripChars).filter (· ≠ [])

/-! ## `auth.py`: the API-key authentication middleware -/

/-- Outcome of `APIKeyAuthMiddleware.dispatch`: either the request is
forwarded to `call_next`, or a `JSONResponse({"error": body}, status)`
is returned. -/
inductive Decision where
  | forward : Decision
  | reject (status : Nat) (errorBody : String) : Decision
deriving DecidableEq

/-- `_PUBLIC_PATHS`. -/
def publicPaths : List String := ["/health"]

/-- The `{"error": ...}` body for a missing `Authorization` header. -/
def missingAuthMsg : String := "Missing Authorization header"

/-- The `{"error": ...}` body for a malformed `Authorization` header. -/
def malformedAuthMsg : String :=
  "Invalid Authorization header format, expected " ++ String.mk [Char.ofNat 39]
    ++ "Bearer <key>" ++ String.mk [Char.ofNat 39]

/-- The `{"error": ...}` body for an unknown API key. -/
def invalidKeyMsg : String := "Invalid API key"

/-- Python `s.split(" ", maxsplit=1)` over character lists, reported as
`none` when there is no space (the one-element result) and as
`some (before, after)` for the two-element result. -/
def splitFirstSpace : List Char → Option (List Char × List Char)
  | [] => none
  | c :: rest =>
      if c = ' ' then some ([], rest)
      else
        match splitFirstSpace rest with
        | none => none
        | some (a, b) => some (c :: a, b)

/-- `APIKeyAuthMiddleware.dispatch`, as a decision function of the
configured key set, the request path, and the request's `Authorization`
header value (`none` when the header is absent). -/
def dispatch (validKeys : List (List Char)) (path : String)
    (authHeader : Option (List Char)) : Decision :=
  if path ∈ publicPaths then .forward
  else if validKeys = [] then .forward
  else
    match authHeader with
    | none => .reject 401 missingAuthMsg
    | some h =>
        if h = [] then .reject 401 missingAuthMsg
        else
          match splitFirstSpace h with
          | none => .reject 401 malformedAuthMsg
          | some (scheme, key) =>
              if scheme = "Bearer".data then
                if key ∈ validKeys then .forward
                else .reject 401 invalidKeyMsg
              else .reject 401 malformedAuthMsg

lemma splitFirstSpace_eq_some {h a b : List Char} :
    splitFirstSpace h = some (a, b) ↔ ' ' ∉ a ∧ h = a ++ ' ' :: b := by
  induction h generalizing a b with
  | nil => simp [splitFirstSpace]
  | cons c rest ih =>
      by_cases hc : c = ' '
      · subst hc
        have hred : splitFirstSpace (' ' :: rest) = some ([], rest) := rfl
        rw [hred]
        simp only [Option.some.injEq, Prod.mk.injEq]
        constructor
        · rintro ⟨rfl, rfl⟩
          simp
        · rintro ⟨hna, heq⟩
          cases a with
          | nil =>
              simp only [List.nil_append, List.cons.injEq] at heq
              exact ⟨rfl, heq.2⟩
          | cons x xs =>
              simp only [List.cons_append, List.cons.injEq] at heq
              rw [← heq.1] at hna
              simp at hna
      · simp only [splitFirstSpace, if_neg hc]
        cases hsp : splitFirstSpace rest with
        | none =>
            simp only [false_iff, reduceCtorEq]
            rintro ⟨hna, heq⟩
            cases a with
            | nil =>
                simp only [List.nil_append, List.cons.injEq] at heq
                exact hc heq.1
            | cons x xs =>
                simp only [List.cons_append, List.cons.injEq] at heq
                have hxs : ' ' ∉ xs := fun hm => hna (List.mem_cons_of_mem _ hm)
                have := (ih (a := xs) (b := b)).mpr ⟨hxs, heq.2⟩
                rw [hsp] at this
                exact Option.noConfusion this
        | some p =>
            obtain ⟨a2, b2⟩ := p
            obtain ⟨hna2, heq2⟩ := (ih (a := a2) (b := b2)).mp hsp
            simp only [Option.some.injEq, Prod.mk.injEq]
            constructor
            · rintro ⟨rfl, rfl⟩
              refine ⟨?_, by rw [heq2, List.cons_append]⟩
              intro hmem
              rcases List.mem_cons.mp hmem with h1 | h2
              · exact hc h1.symm
              · exact hna2 h2
            · rintro ⟨hna, heq⟩
              cases a with
              | nil =>
                  simp only [List.nil_append, List.cons.injEq] at heq
                  exact absurd heq.1 hc
              | cons x xs =>
                  simp only [List.cons_append, List.cons.injEq] at heq
                  have hxs : ' ' ∉ xs := fun hm => hna (List.mem_cons_of_mem _ hm)
                  have h4 := (ih (a := xs) (b := b)).mpr ⟨hxs, heq.2⟩
                  rw [hsp] at h4
                  simp only [Option.some.injEq, Prod.mk.injEq] at h4
                  exact ⟨by rw [heq.1, h4.1], h4.2⟩

lemma splitFirstSpace_eq_none {h : List Char} :
    splitFirstSpace h = none ↔ ' ' ∉ h := by
  induction h with
  | nil => simp [splitFirstSpace]
  | cons c rest ih =>
      by_cases hc : c = ' '
      · subst hc
        have hred : splitFirstSpace (' ' :: rest) = some ([], rest) := rfl
        simp [hred]
      · simp only [splitFirstSpace, if_neg hc]
        cases hsp : splitFirstSpace rest with
        | none =>
            rw [hsp] at ih
            simp only [List.mem_cons, true_iff]
            push_neg
            exact ⟨fun hmem => hc hmem.symm, ih.mp rfl⟩
        | some p =>
            obtain ⟨a2, b2⟩ := p
            simp only [reduceCtorEq, false_iff, List.mem_cons, not_or, not_not]
            intro hno
            have : ' ' ∈ rest := by
              by_contra hnot
              rw [ih.mpr hnot] at hsp
              exact Option.noConfusion hsp
            exact absurd this hno.2

lemma splitFirstSpace_bearer (k : List Char) :
    splitFirstSpace ("Bearer ".data ++ k) = some ("Bearer".data, k) := by
  rw [splitFirstSpace_eq_some]
  constructor
  · decide
  · have : "Bearer ".data = "Bearer".data ++ [' '] := by decide
    rw [this, List.append_assoc, List.singleton_append]

/-! ## `client.py`: the backend client contract -/

/-- The JSON body `LevelangClient.translate` POSTs to `/translate`
(the `json=` dict literal in `client.py`). -/
def translateRequestBody (text sourceLanguageCode targetLanguageCode level mood : String) :
    List (String × Json) :=
  [("text", .str text),
   ("source_language_code", .str sourceLanguageCode),
   ("target_language_code", .str targetLanguageCode),
   ("level", .str level),
   ("mood", .str mood)]

/-- The keyword parameters accepted by `LevelangClient.translate`
(its Python signature, after `self`). -/
def clientTranslateParams : List String :=
  ["text", "source_language_code", "target_language_code", "level", "mood"]

/-- The keyword arguments `server.py` passes in
`await levelang.translate(...)` (both in the `translate` tool and in
`translate_compare`'s `_translate_at_level`). -/
def serverTranslateCallKeywords : List String :=
  ["text", "source_language_code", "target_language_code", "level", "mood", "mode"]

/-- The headers `LevelangClient._headers` attaches: `Authorization` is
present iff a backend API key is configured. -/
def clientHeaders (apiKey : Option String) : List (String × String) :=
  match apiKey with
  | some key => if key = "" then [("Content-Type", "application/json")]
                else [("Content-Type", "application/json"), ("Authorization", "Bearer " ++ key)]
  | none => [("Content-Type", "application/json")]

/-! ## `server.py`: the tool layer -/

/-- Arguments of one backend `translate` call as issued by the tool
layer.  `level` is whatever value the orchestration passes (a string for
the `translate` tool; for `translate_compare` it is an element of the
backend-reported `levels` list, hence an arbitrary JSON value). -/
structure TranslateArgs where
  text : String
  sourceLanguageCode : String
  targetLanguageCode : String
  level : Json
  mood : String
  mode : Option String

/-- Message constants of `server.py`'s `translate` tool. -/
def rateLimitMsg : String := "Rate limit reached. Please wait a moment and try again."

def unavailableMsg : String :=
  "Translation service is temporarily unavailable. Please try again."

def translateTimeoutMsg : String :=
  "Translation request timed out. The backend may be under heavy load."

def cannotReachMsg : String :=
  "Cannot reach the Levelang backend. Check that the service is running."

def unexpectedErrorMsg (s : String) : String := "Unexpected error: " ++ s

def backendErrorMsg (status : Nat) (body : String) : String :=
  "Backend error (HTTP " ++ toString status ++ "): " ++ body

def invalidRequestMsg (detail : String) : String := "Invalid request: " ++ detail

/-- `formatting.py`'s `format_translation`, with every dynamic dict
access made explicit; raises (returns `.error`) exactly where the Python
would raise. -/
def formatTranslation (response : Json) : Except PyErr String :=
  match subscriptGet response "translation" with
  | .error e => .error e
  | .ok tr =>
    match dictGet response "transliteration" .null with
    | .error e => .error e
    | .ok tl =>
      match dictGet response "transcription" .null with
      | .error e => .error e
      | .ok tc =>
        match dictGet response "metadata" (.obj []) with
        | .error e => .error e
        | .ok md =>
          let lines0 : List String :=
            ["Translation: " ++ pyStr tr]
            ++ (if pyTruthy tl then ["Transliteration: " ++ pyStr tl] else [])
            ++ (if pyTruthy tc then ["Transcription: " ++ pyStr tc] else [])
          if pyTruthy md = false then .ok (strJoinNl lines0)
          else
            match dictGet md "level" (.str "") with
            | .error e => .error e
            | .ok level =>
              match dictGet md "level_description" (.str "") with
              | .error e => .error e
              | .ok levelDesc =>
                match dictGet md "mood" .null with
                | .error e => .error e
                | .ok mood =>
                  match dictGet md "mode" .null with
                  | .error e => .error e
                  | .ok mode =>
                    match dictGet md "provider" (.str "") with
                    | .error e => .error e
                    | .ok provider =>
                      match dictGet md "model" (.str "") with
                      | .error e => .error e
                      | .ok model =>
                        match dictGet md "processing_time_ms" .null with
                        | .error e => .error e
                        | .ok pt =>
                          let levelLines : List String :=
                            if pyTruthy level && pyTruthy levelDesc then
                              ["Level: " ++ pyStr level ++ " (" ++ pyStr levelDesc ++ ")"]
                            else if pyTruthy level then ["Level: " ++ pyStr level]
                            else []
                          let moodLines : List String :=
                            if pyTruthy mood then ["Mood: " ++ pyStr mood] else []
                          let modeLines : List String :=
                            if pyTruthy mode then ["Mode: " ++ pyStr mode] else []
                          let providerLines : List String :=
                            if pyTruthy provider && pyTruthy model then
                              ["Provider: " ++ pyStr provider ++ " / " ++ pyStr model]
                            else if pyTruthy provider then ["Provider: " ++ pyStr provider]
                            else []
                          let ptLines : List String :=
                            match pt with
                            | .null => []
                            | v => ["Processing time: " ++ pyStr v ++ "ms"]
                          .ok (strJoinNl
                            (lines0 ++ levelLines ++ moodLines ++ modeLines
                              ++ providerLines ++ ptLines))

/-- The `translate` tool of `server.py`, with the backend client
abstracted by the outcome of `await levelang.translate(...)` for given
arguments.  Returns `.error` exactly when the Python function would let
an exception escape to its caller. -/
def translateTool (backend : TranslateArgs → Except PyErr Json)
    (text targetLanguage level sourceLanguage mood : String) (mode : Option String) :
    Except PyErr String :=
  match backend ⟨sanitizeText text, sourceLanguage, targetLanguage, .str level, mood, mode⟩ with
  | .ok result =>
      match formatTranslation result with
      | .ok s => .ok s
      | .error e => .ok (unexpectedErrorMsg (pyErrStr e))
  | .error (.httpStatusError resp) =>
      if resp.statusCode = 422 then
        match resp.jsonBody with
        | none => .error .jsonDecodeError
        | some j =>
            match j with
            | .obj kvs =>
                .ok (invalidRequestMsg (pyStr ((kvs.lookup "detail").getD (.str "Validation error"))))
            | _ => .error .attributeError
      else if resp.statusCode = 429 then .ok rateLimitMsg
      else if 500 ≤ resp.statusCode then .ok unavailableMsg
      else .ok (backendErrorMsg resp.statusCode resp.text)
  | .error .timeoutException => .ok translateTimeoutMsg
  | .error .connectError => .ok cannotReachMsg
  | .error e => .ok (unexpectedErrorMsg (pyErrStr e))

/-! ## `translate_compare` and `format_comparison` -/

/-- A single quote character, for building Python-style messages. -/
def pyQuote : String := String.mk [Char.ofNat 39]

def languageNotFoundMsg (targetLanguage : String) : String :=
  "Language " ++ pyQuote ++ targetLanguage ++ pyQuote
    ++ " not found. Use list_languages to see available codes."

def compareFetchTimeoutMsg : String :=
  "Request timed out while fetching language details."

def noLevelsMsg (targetLanguage : String) : String :=
  "No proficiency levels configured for " ++ pyQuote ++ targetLanguage ++ pyQuote ++ "."

def invalidLevelsMsg (invalid : List String) (availableCodesStr : String)
    (targetLanguage : String) : String :=
  "Invalid level(s): " ++ joinCommaStr invalid ++ ". Available levels for "
    ++ pyQuote ++ targetLanguage ++ pyQuote ++ ": " ++ availableCodesStr

/-- The list comprehension
`[lv.get("code", "") for lv in available_levels if lv.get("code")]`
over the elements of the `levels` array. -/
def availCodesList : List Json → Except PyErr (List Json)
  | [] => .ok []
  | lv :: rest =>
      match dictGet lv "code" .null with
      | .error e => .error e
      | .ok cond =>
          if pyTruthy cond then
            match dictGet lv "code" (.str "") with
            | .error e => .error e
            | .ok v =>
                match availCodesList rest with
                | .error e => .error e
                | .ok vs => .ok (v :: vs)
          else availCodesList rest

/-- The same comprehension applied to the `available_levels` value,
which raises `TypeError` when that value is not a list. -/
def availableCodesOf : Json → Except PyErr (List Json)
  | .arr lvs => availCodesList lvs
  | _ => .error (.typeError "object is not iterable")

/-- One entry of `translate_compare`'s fan-out: the dict built by
`_translate_at_level`. -/
structure CompEntry where
  level : Json
  ok : Bool
  result : Option Json
  error : Option String

/-- `_translate_at_level`: one backend call whose outcome is captured
as a tagged entry; every exception is caught. -/
def translateAtLevel (backend : TranslateArgs → Except PyErr Json)
    (sanitized targetLanguage sourceLanguage mood : String) (mode : Option String)
    (lv : Json) : CompEntry :=
  match backend ⟨sanitized, sourceLanguage, targetLanguage, lv, mood, mode⟩ with
  | .ok r => ⟨lv, true, some r, none⟩
  | .error e => ⟨lv, false, none, some (pyErrStr e)⟩

/-- `asyncio.gather` over `_translate_at_level`: one entry per requested
level, in the requested order (gather returns results in argument
order). -/
def gatherEntries (backend : TranslateArgs → Except PyErr Json)
    (sanitized targetLanguage sourceLanguage mood : String) (mode : Option String)
    (levelCodes : List Json) : List CompEntry :=
  levelCodes.map (translateAtLevel backend sanitized targetLanguage sourceLanguage mood mode)

/-- Python `format(x, ".0f")` as used in `f"  ({processing_time:.0f}ms)"`:
defined on numbers, raises `TypeError` otherwise. -/
def formatF0 : Json → Except PyErr String
  | .int n => .ok (toString n)
  | .bool b => .ok (if b then "1" else "0")
  | _ => .error (.typeError "unsupported format string passed")

/-- The header lines of `format_comparison` (original text, language,
mood, and the mode when given and different from "written"). -/
def comparisonHeaderLines (text : String) (languageName : Json) (mood : String)
    (mode : Option String) : List Json :=
  let header0 := "Language: " ++ pyStr languageName ++ " | Mood: " ++ pyCapitalize mood
  let header :=
    match mode with
    | some m => if m ≠ "" ∧ m ≠ "written" then header0 ++ " | Mode: " ++ pyCapitalize m
                else header0
    | none => header0
  [.str ("Comparing translations of: \"" ++ text ++ "\""), .str header, .str ""]

/-- The lines `format_comparison` appends for one Comparison Entry:
heading, then error or translation (with optional transliteration and
processing time), then a blank line.  Raises exactly where the Python
would (non-string level, non-dict result, non-numeric time...). -/
def entryLines (e : CompEntry) : Except PyErr (List Json) :=
  match e.level with
  | .str lvs =>
      let heading : Json := .str ("── " ++ pyCapitalize lvs ++ " ──")
      if e.ok = false then
        match e.error with
        | some err => .ok [heading, .str ("  Error: " ++ err), .str ""]
        | none => .error (.keyError "error")
      else
        match e.result with
        | none => .error (.keyError "result")
        | some r =>
            match dictGet r "translation" (.str "(no translation)") with
            | .error er => .error er
            | .ok tr =>
                match dictGet r "transliteration" .null with
                | .error er => .error er
                | .ok tl =>
                    let translitLines : List Json :=
                      if pyTruthy tl then [.str ("  Transliteration: " ++ pyStr tl)] else []
                    match dictGet r "metadata" (.obj []) with
                    | .error er => .error er
                    | .ok md =>
                        match dictGet md "processing_time_ms" .null with
                        | .error er => .error er
                        | .ok pt =>
                            match pt with
                            | .null => .ok ([heading, tr] ++ translitLines ++ [.str ""])
                            | v =>
                                match formatF0 v with
                                | .error er => .error er
                                | .ok ptStr =>
                                    .ok ([heading, tr] ++ translitLines
                                      ++ [.str ("  (" ++ ptStr ++ "ms)"), .str ""])
  | _ => .error .attributeError

/-- The per-entry loop of `format_comparison`, aborting at the first
raising entry as the Python loop would. -/
def collectBlocks : List CompEntry → Except PyErr (List (List Json))
  | [] => .ok []
  | e :: rest =>
      match entryLines e with
      | .error er => .error er
      | .ok b =>
          match collectBlocks rest with
          | .error er => .error er
          | .ok bs => .ok (b :: bs)

/-- Python `"\n".join(lines)` over the accumulated (dynamically typed)
lines: `TypeError` unless every line is a string. -/
def joinNlAll (lines : List Json) : Except PyErr String :=
  match allStrings lines with
  | some strs => .ok (strJoinNl strs)
  | none => .error (.typeError "sequence item: expected str instance")

/-- `formatting.py`'s `format_comparison`. -/
def formatComparison (text : String) (languageName : Json) (mood : String)
    (results : List CompEntry) (mode : Option String) : Except PyErr String :=
  match collectBlocks results with
  | .error er => .error er
  | .ok blocks =>
      match joinNlAll (comparisonHeaderLines text languageName mood mode ++ blocks.flatten) with
      | .error er => .error er
      | .ok s => .ok (String.mk (pyRstripChars s.data))

/-- The `translate_compare` tool of `server.py`.  The backend client is
abstracted by the outcome of `get_language(target_language)` and by the
per-call outcomes of `levelang.translate`.  Returns the tool's result
(`.error` exactly when the Python function would raise) together with
the list of levels at which a backend `translate` call was issued. -/
def translateCompareTool (getLang : Except PyErr Json)
    (backend : TranslateArgs → Except PyErr Json)
    (text targetLanguage sourceLanguage mood : String)
    (levels : Option (List String)) (mode : Option String) :
    Except PyErr String × List Json :=
  let sanitized := sanitizeText text
  match getLang with
  | .error (.httpStatusError resp) =>
      if resp.statusCode = 404 then (.ok (languageNotFoundMsg targetLanguage), [])
      else (.ok (backendErrorMsg resp.statusCode resp.text), [])
  | .error .connectError => (.ok cannotReachMsg, [])
  | .error .timeoutException => (.ok compareFetchTimeoutMsg, [])
  | .error e => (.ok (unexpectedErrorMsg (pyErrStr e)), [])
  | .ok langConfig =>
      match dictGet langConfig "levels" (.arr []) with
      | .error e => (.error e, [])
      | .ok availableLevels =>
          if pyTruthy availableLevels = false then (.ok (noLevelsMsg targetLanguage), [])
          else
            match availableCodesOf availableLevels with
            | .error e => (.error e, [])
            | .ok availableCodes =>
                let fanout : List Json → Except PyErr String × List Json := fun levelCodes =>
                  let entries := gatherEntries backend sanitized targetLanguage
                    sourceLanguage mood mode levelCodes
                  match dictGet langConfig "name" (.str targetLanguage) with
                  | .error e => (.error e, levelCodes)
                  | .ok nameJson =>
                      (formatComparison sanitized nameJson mood entries mode, levelCodes)
                match levels with
                | some ls =>
                    let invalid := ls.filter
                      (fun lv => !(availableCodes.any (fun c => jsonBeq c (.str lv))))
                    if invalid = [] then fanout (ls.map .str)
                    else
                      match joinCommaJson availableCodes with
                      | .error e => (.error e, [])
                      | .ok codesStr =>
                          (.ok (invalidLevelsMsg invalid codesStr targetLanguage), [])
                | none => fanout availableCodes

/-! ## Cleanliness of stripped strings -/

lemma head_not_of_dropWhile_eq {p : Char → Bool} {l : List Char}
    (h : List.dropWhile p l = l) : ∀ c, l.head? = some c → p c = false := by
  intro c hc
  cases l with
  | nil => simp at hc
  | cons a t =>
      have hac : a = c := by simpa using hc
      by_cases hp : p a = true
      · rw [List.dropWhile_cons, if_pos hp] at h
        have hlen := congrArg List.length h
        have hle : (List.dropWhile p t).length ≤ t.length :=
          (List.dropWhile_suffix p).sublist.length_le
        simp only [List.length_cons] at hlen
        omega
      · rw [← hac]
        simpa using hp

/-- The head and last characters of a stripped string are never
whitespace. -/
lemma pyStripChars_clean (l : List Char) :
    (∀ c, (pyStripChars l).head? = some c → isPySpace c = false) ∧
    (∀ c, (pyStripChars l).getLast? = some c → isPySpace c = false) := by
  constructor
  · exact head_not_of_dropWhile_eq (pyStripChars_head_not l)
  · intro c hc
    have hne : pyStripChars l ≠ [] := by
      intro hnil; rw [hnil] at hc; simp at hc
    have hself : List.rdropWhile isPySpace (pyStripChars l) = pyStripChars l :=
      List.rdropWhile_idempotent _ _
    have := (List.rdropWhile_eq_self_iff (p := isPySpace) (l := pyStripChars l)).mp hself hne
    have hgl : (pyStripChars l).getLast hne = c := by
      have := List.getLast?_eq_getLast (l := pyStripChars l) hne
      rw [hc] at this
      exact (Option.some.inj this).symm
    rw [hgl] at this
    simpa using this

/-! ## Claim theorems: sanitization and key parsing -/

/-- C9: for every string T, `_sanitize_text(T)` removes only a run of
leading whitespace and a run of trailing whitespace, preserving every
interior character exactly, and it is idempotent:
`_sanitize_text(_sanitize_text(T)) == _sanitize_text(T)`. -/
theorem sanitize_strips_only_edges_and_idempotent (T : String) :
    (∃ pre suf, T.data = pre ++ (sanitizeText T).data ++ suf ∧
      (∀ c ∈ pre, isPySpace c = true) ∧ (∀ c ∈ suf, isPySpace c = true)) ∧
    sanitizeText (sanitizeText T) = sanitizeText T := by
  constructor
  · simpa [sanitizeText] using pyStripChars_decomp T.data
  · show String.mk (pyStripChars (pyStripChars T.data)) = _
    rw [pyStripChars_idempotent]
    rfl

/-- Closed instantiation of the C9 theorem at a concrete input. -/
theorem sanitize_strips_only_edges_and_idempotent_witness :
    (∃ pre suf, ("  Line one.\nLine two.  ").data
        = pre ++ (sanitizeText "  Line one.\nLine two.  ").data ++ suf ∧
      (∀ c ∈ pre, isPySpace c = true) ∧ (∀ c ∈ suf, isPySpace c = true)) ∧
    sanitizeText (sanitizeText "  Line one.\nLine two.  ")
      = sanitizeText "  Line one.\nLine two.  " :=
  sanitize_strips_only_edges_and_idempotent "  Line one.\nLine two.  "

lemma parseApiKeys_mem (raw : Option String) :
    ∀ k ∈ parseApiKeys raw, k ≠ [] ∧
      (∀ c, k.head? = some c → isPySpace c = false) ∧
      (∀ c, k.getLast? = some c → isPySpace c = false) := by
  intro k hk
  cases raw with
  | none => simp [parseApiKeys] at hk
  | some s =>
      by_cases hs : s = ""
      · simp [parseApiKeys, hs] at hk
      · have hk2 : k ∈ List.filter (· ≠ []) (List.map pyStripChars (splitOnComma s.data)) := by
          simpa [parseApiKeys, hs] using hk
        obtain ⟨hkmem, hkne⟩ := List.mem_filter.mp hk2
        obtain ⟨g, -, rfl⟩ := List.mem_map.mp hkmem
        refine ⟨by simpa using hkne, (pyStripChars_clean g).1, (pyStripChars_clean g).2⟩

/-- C10: parsed `MCP_API_KEYS` entries are never empty and never carry
leading or trailing whitespace; consequently, with auth enabled, a
request whose header is exactly `"Bearer "` (empty key value) is always
rejected as an invalid API key, never authenticated. -/
theorem parse_api_keys_clean_and_empty_bearer_rejected (raw : Option String) :
    (∀ k ∈ parseApiKeys raw, k ≠ [] ∧
      (∀ c, k.head? = some c → isPySpace c = false) ∧
      (∀ c, k.getLast? = some c → isPySpace c = false)) ∧
    (∀ path : String, path ∉ publicPaths → parseApiKeys raw ≠ [] →
      dispatch (parseApiKeys raw) path (some "Bearer ".data) = .reject 401 invalidKeyMsg) := by
  refine ⟨parseApiKeys_mem raw, ?_⟩
  intro path hpath hne
  have hmem : ([] : List Char) ∉ parseApiKeys raw := fun hm =>
    (parseApiKeys_mem raw [] hm).1 rfl
  show (if path ∈ publicPaths then Decision.forward
        else if parseApiKeys raw = [] then Decision.forward
        else if ([] : List Char) ∈ parseApiKeys raw then Decision.forward
        else Decision.reject 401 invalidKeyMsg) = Decision.reject 401 invalidKeyMsg
  rw [if_neg hpath, if_neg hne, if_neg hmem]

/-- Closed instantiation of the C10 theorem at a concrete raw value. -/
theorem parse_api_keys_clean_witness :
    (∀ k ∈ parseApiKeys (some " alpha, ,beta  "), k ≠ [] ∧
      (∀ c, k.head? = some c → isPySpace c = false) ∧
      (∀ c, k.getLast? = some c → isPySpace c = false)) ∧
    dispatch (parseApiKeys (some " alpha, ,beta  ")) "/mcp" (some "Bearer ".data)
      = .reject 401 invalidKeyMsg :=
  ⟨(parse_api_keys_clean_and_empty_bearer_rejected (some " alpha, ,beta  ")).1,
   (parse_api_keys_clean_and_empty_bearer_rejected (some " alpha, ,beta  ")).2
     "/mcp" (by decide) (by decide)⟩

/-! ## Claim theorems: auth middleware -/

lemma bearer_data_eq : "Bearer ".data = "Bearer".data ++ [' '] := by decide

/-- C3: the ALLOW decision of the middleware — health paths always
forward; an empty key set forwards everything; and with a non-empty key
set on a non-public path, a request is forwarded iff its header is
exactly `"Bearer " + k` for some configured key `k`. -/
theorem auth_allow_characterization :
    (∀ (keys : List (List Char)) (path : String) (header : Option (List Char)),
        path ∈ publicPaths → dispatch keys path header = .forward) ∧
    (∀ (path : String) (header : Option (List Char)),
        dispatch [] path header = .forward) ∧
    (∀ (keys : List (List Char)) (path : String) (header : Option (List Char)),
        keys ≠ [] → path ∉ publicPaths →
        (dispatch keys path header = .forward ↔
          ∃ k ∈ keys, header = some ("Bearer ".data ++ k))) := by
  refine ⟨?_, ?_, ?_⟩
  · intro keys path header hp
    unfold dispatch
    rw [if_pos hp]
  · intro path header
    unfold dispatch
    by_cases hp : path ∈ publicPaths
    · rw [if_pos hp]
    · rw [if_neg hp, if_pos rfl]
  · intro keys path header hk hp
    unfold dispatch
    rw [if_neg hp, if_neg hk]
    cases header with
    | none =>
        dsimp only
        constructor
        · intro hcon
          exact Decision.noConfusion hcon
        · rintro ⟨k, -, hcontra⟩
          exact Option.noConfusion hcontra
    | some h =>
        dsimp only
        by_cases hnil : h = []
        · subst hnil
          rw [if_pos rfl]
          constructor
          · intro hcon
            exact Decision.noConfusion hcon
          · rintro ⟨k, -, hcontra⟩
            have h2 := Option.some.inj hcontra
            have hlen := congrArg List.length h2
            simp at hlen
        · rw [if_neg hnil]
          cases hsp : splitFirstSpace h with
          | none =>
              dsimp only
              constructor
              · intro hcon
                exact Decision.noConfusion hcon
              · rintro ⟨k, -, hcontra⟩
                have hh := Option.some.inj hcontra
                rw [hh, splitFirstSpace_bearer] at hsp
                exact Option.noConfusion hsp
          | some p =>
              obtain ⟨scheme, key⟩ := p
              dsimp only
              by_cases hs : scheme = "Bearer".data
              · rw [if_pos hs]
                by_cases hkm : key ∈ keys
                · rw [if_pos hkm]
                  constructor
                  · intro _
                    refine ⟨key, hkm, ?_⟩
                    obtain ⟨-, hdecomp⟩ := splitFirstSpace_eq_some.mp hsp
                    rw [hdecomp, hs]
                    rfl
                  · intro _
                    rfl
                · rw [if_neg hkm]
                  constructor
                  · intro hcon
                    exact Decision.noConfusion hcon
                  · rintro ⟨k, hkmem, hcontra⟩
                    have hh := Option.some.inj hcontra
                    rw [hh, splitFirstSpace_bearer] at hsp
                    have h2 := Option.some.inj hsp
                    obtain ⟨-, hkey⟩ := Prod.mk.inj h2
                    rw [← hkey] at hkm
                    exact absurd hkmem hkm
              · rw [if_neg hs]
                constructor
                · intro hcon
                  exact Decision.noConfusion hcon
                · rintro ⟨k, -, hcontra⟩
                  have hh := Option.some.inj hcontra
                  rw [hh, splitFirstSpace_bearer] at hsp
                  have h2 := Option.some.inj hsp
                  exact absurd (Prod.mk.inj h2).1.symm hs

/-- Closed instantiation of the C3 theorem: a correct bearer key is
forwarded, a health-path request with no header is forwarded, and the
empty key set forwards an arbitrary request. -/
theorem auth_allow_characterization_witness :
    dispatch ["secret".data] "/mcp" (some "Bearer secret".data) = .forward ∧
    dispatch ["secret".data] "/health" none = .forward ∧
    dispatch [] "/mcp" (some "garbage".data) = .forward :=
  ⟨(auth_allow_characterization.2.2 ["secret".data] "/mcp" (some "Bearer secret".data)
      (by decide) (by decide)).mpr ⟨"secret".data, by simp, by decide⟩,
   auth_allow_characterization.1 ["secret".data] "/health" none (by decide),
   auth_allow_characterization.2.1 "/mcp" (some "garbage".data)⟩

/-- C4 counterexample: with a non-empty key set, the header
`"Bearer "` — the empty-value deviation from the two-token form — is
rejected with the `"Invalid API key"` body, not with the
`"Invalid Authorization header format..."` body the claim requires for
every deviation. -/
theorem auth_reject_empty_value_counterexample :
    dispatch ["secret".data] "/mcp" (some "Bearer ".data) = .reject 401 invalidKeyMsg ∧
    invalidKeyMsg ≠ malformedAuthMsg := by
  constructor
  · rfl
  · decide

/-- C4 (amended): every rejection is a 401 whose body is determined as
follows — a missing or present-but-empty header yields the
missing-header body; a non-empty header with no space, or whose segment
before the first space is not exactly `Bearer`, yields the format-error
body; and a header of the exact form `"Bearer " + v` whose value `v`
(possibly empty, possibly containing further spaces) is not in the key
set yields the invalid-key body. -/
theorem auth_reject_catalog (keys : List (List Char)) (path : String)
    (hkeys : keys ≠ []) (hpath : path ∉ publicPaths) :
    (dispatch keys path none = .reject 401 missingAuthMsg) ∧
    (dispatch keys path (some []) = .reject 401 missingAuthMsg) ∧
    (∀ h : List Char, h ≠ [] → splitFirstSpace h = none →
        dispatch keys path (some h) = .reject 401 malformedAuthMsg) ∧
    (∀ h scheme key, h ≠ [] → splitFirstSpace h = some (scheme, key) →
        scheme ≠ "Bearer".data →
        dispatch keys path (some h) = .reject 401 malformedAuthMsg) ∧
    (∀ key : List Char, key ∉ keys →
        dispatch keys path (some ("Bearer ".data ++ key)) = .reject 401 invalidKeyMsg) := by
  refine ⟨?_, ?_, ?_, ?_, ?_⟩
  · unfold dispatch
    rw [if_neg hpath, if_neg hkeys]
  · unfold dispatch
    rw [if_neg hpath, if_neg hkeys]
    dsimp only
    rw [if_pos rfl]
  · intro h hne hsp
    unfold dispatch
    rw [if_neg hpath, if_neg hkeys]
    dsimp only
    rw [if_neg hne, hsp]
  · intro h scheme key hne hsp hs
    unfold dispatch
    rw [if_neg hpath, if_neg hkeys]
    dsimp only
    rw [if_neg hne, hsp]
    dsimp only
    rw [if_neg hs]
  · intro key hkm
    unfold dispatch
    rw [if_neg hpath, if_neg hkeys]
    dsimp only
    have hne : "Bearer ".data ++ key ≠ [] := by
      rw [bearer_data_eq]
      simp
    rw [if_neg hne, splitFirstSpace_bearer]
    dsimp only
    rw [if_pos rfl, if_neg hkm]

/-- Closed instantiation of the amended C4 theorem. -/
theorem auth_reject_catalog_witness :
    dispatch ["k1".data] "/x" none = .reject 401 missingAuthMsg ∧
    dispatch ["k1".data] "/x" (some []) = .reject 401 missingAuthMsg ∧
    dispatch ["k1".data] "/x" (some "Token".data) = .reject 401 malformedAuthMsg ∧
    dispatch ["k1".data] "/x" (some "bearer k1".data) = .reject 401 malformedAuthMsg ∧
    dispatch ["k1".data] "/x" (some ("Bearer ".data ++ "zz".data)) = .reject 401 invalidKeyMsg :=
  ⟨(auth_reject_catalog ["k1".data] "/x" (by decide) (by decide)).1,
   (auth_reject_catalog ["k1".data] "/x" (by decide) (by decide)).2.1,
   (auth_reject_catalog ["k1".data] "/x" (by decide) (by decide)).2.2.1
     "Token".data (by decide) (by decide),
   (auth_reject_catalog ["k1".data] "/x" (by decide) (by decide)).2.2.2.1
     "bearer k1".data "bearer".data "k1".data (by decide) (by decide) (by decide),
   (auth_reject_catalog ["k1".data] "/x" (by decide) (by decide)).2.2.2.2
     "zz".data (by decide)⟩

/-! ## Claim theorems: backend client and the translate tool -/

/-- C1 evidence: the body `LevelangClient.translate` POSTs carries
exactly the five fields `text`, `source_language_code`,
`target_language_code`, `level`, `mood` and never a `mode` field, while
`server.py` passes a `mode` keyword that the client's signature does not
accept (so the call raises `TypeError` before any request is issued). -/
theorem client_translate_has_no_mode_field :
    (∀ text src tgt level mood, (translateRequestBody text src tgt level mood).map Prod.fst
        = clientTranslateParams) ∧
    serverTranslateCallKeywords.contains "mode" = true ∧
    clientTranslateParams.contains "mode" = false :=
  ⟨fun _ _ _ _ _ => rfl, rfl, rfl⟩

/-- C5 evidence: when the backend answers HTTP 422 with a body that is
not valid JSON, the `translate` tool raises `json.JSONDecodeError` out
of its own `except` handler instead of returning a string. -/
theorem translate_tool_raises_on_non_json_422 :
    translateTool (fun _ => .error (.httpStatusError ⟨422, "oops", none⟩))
      "Hello" "fra" "beginner" "eng" "casual" none = .error .jsonDecodeError := rfl

/-- C2: the `translate` tool maps each backend outcome to its
user-facing message — 429 to a "Rate limit" message, any status at or
above 500 to a "temporarily unavailable" message, a connect failure to a
"Cannot reach" message, a timeout to a "timed out" message, and a 422
whose JSON body carries a string `detail` to
`"Invalid request: " + detail`. -/
theorem translate_error_mapping
    (backend : TranslateArgs → Except PyErr Json)
    (text targetLanguage level sourceLanguage mood : String) (mode : Option String) :
    (∀ resp : HttpResponse,
        backend ⟨sanitizeText text, sourceLanguage, targetLanguage, .str level, mood, mode⟩
          = .error (.httpStatusError resp) →
        (resp.statusCode = 429 →
          ∃ s, translateTool backend text targetLanguage level sourceLanguage mood mode
              = .ok s ∧ "Rate limit".data <:+: s.data) ∧
        (500 ≤ resp.statusCode →
          ∃ s, translateTool backend text targetLanguage level sourceLanguage mood mode
              = .ok s ∧ "temporarily unavailable".data <:+: s.data) ∧
        (∀ kvs d, resp.statusCode = 422 → resp.jsonBody = some (.obj kvs) →
            kvs.lookup "detail" = some (.str d) →
            translateTool backend text targetLanguage level sourceLanguage mood mode
              = .ok (invalidRequestMsg d))) ∧
    (backend ⟨sanitizeText text, sourceLanguage, targetLanguage, .str level, mood, mode⟩
        = .error .connectError →
      ∃ s, translateTool backend text targetLanguage level sourceLanguage mood mode
          = .ok s ∧ "Cannot reach".data <:+: s.data) ∧
    (backend ⟨sanitizeText text, sourceLanguage, targetLanguage, .str level, mood, mode⟩
        = .error .timeoutException →
      ∃ s, translateTool backend text targetLanguage level sourceLanguage mood mode
          = .ok s ∧ "timed out".data <:+: s.data) := by
  refine ⟨?_, ?_, ?_⟩
  · intro resp hout
    refine ⟨?_, ?_, ?_⟩
    · intro h429
      refine ⟨rateLimitMsg, ?_, by decide⟩
      unfold translateTool
      rw [hout]
      dsimp only
      have h422 : resp.statusCode ≠ 422 := by omega
      rw [if_neg h422, if_pos h429]
    · intro h500
      refine ⟨unavailableMsg, ?_, by decide⟩
      unfold translateTool
      rw [hout]
      dsimp only
      have h422 : resp.statusCode ≠ 422 := by omega
      have h429 : resp.statusCode ≠ 429 := by omega
      rw [if_neg h422, if_neg h429, if_pos h500]
    · intro kvs d h422 hbody hdetail
      unfold translateTool
      rw [hout]
      dsimp only
      rw [if_pos h422, hbody]
      dsimp only
      rw [hdetail]
      rfl
  · intro hout
    refine ⟨cannotReachMsg, ?_, by decide⟩
    unfold translateTool
    rw [hout]
  · intro hout
    refine ⟨translateTimeoutMsg, ?_, by decide⟩
    unfold translateTool
    rw [hout]

/-- Closed instantiation of the C2 theorem across all five mapped
outcomes. -/
theorem translate_error_mapping_witness :
    (∃ s, translateTool (fun _ => .error (.httpStatusError ⟨429, "Too Many Requests", none⟩))
        "Hello" "fra" "beginner" "eng" "casual" none = .ok s ∧ "Rate limit".data <:+: s.data) ∧
    (∃ s, translateTool (fun _ => .error (.httpStatusError ⟨500, "Internal Server Error", none⟩))
        "Hello" "fra" "beginner" "eng" "casual" none = .ok s ∧
        "temporarily unavailable".data <:+: s.data) ∧
    (∃ s, translateTool (fun _ => .error .connectError)
        "Hello" "fra" "beginner" "eng" "casual" none = .ok s ∧ "Cannot reach".data <:+: s.data) ∧
    (∃ s, translateTool (fun _ => .error .timeoutException)
        "Hello" "fra" "beginner" "eng" "casual" none = .ok s ∧ "timed out".data <:+: s.data) ∧
    translateTool (fun _ => .error (.httpStatusError
        ⟨422, "x", some (.obj [("detail", .str "Invalid language code")])⟩))
        "Hello" "xxx" "beginner" "eng" "casual" none
      = .ok (invalidRequestMsg "Invalid language code") :=
  ⟨((translate_error_mapping (fun _ => .error (.httpStatusError ⟨429, "Too Many Requests", none⟩))
      "Hello" "fra" "beginner" "eng" "casual" none).1 ⟨429, "Too Many Requests", none⟩ rfl).1 rfl,
   ((translate_error_mapping (fun _ => .error (.httpStatusError ⟨500, "Internal Server Error", none⟩))
      "Hello" "fra" "beginner" "eng" "casual" none).1 ⟨500, "Internal Server Error", none⟩ rfl).2.1
      (by decide),
   (translate_error_mapping (fun _ => .error .connectError)
      "Hello" "fra" "beginner" "eng" "casual" none).2.1 rfl,
   (translate_error_mapping (fun _ => .error .timeoutException)
      "Hello" "fra" "beginner" "eng" "casual" none).2.2 rfl,
   ((translate_error_mapping (fun _ => .error (.httpStatusError
        ⟨422, "x", some (.obj [("detail", .str "Invalid language code")])⟩))
      "Hello" "xxx" "beginner" "eng" "casual" none).1
      ⟨422, "x", some (.obj [("detail", .str "Invalid language code")])⟩ rfl).2.2
      [("detail", .str "Invalid language code")] "Invalid language code" rfl rfl rfl⟩

/-! ## Claim theorems: the comparison fan-out -/

/-- C6: every fan-out entry is captured independently — the entry for a
level depends only on that level's outcome; a success is recorded as
`ok=true` with the result and no error; an exception as `ok=false` with
the stringified error and no result; and `ok` is always consistent with
which of `result`/`error` is populated. -/
theorem fanout_entries_spec (backend : TranslateArgs → Except PyErr Json)
    (sanitized targetLanguage sourceLanguage mood : String) (mode : Option String)
    (levelCodes : List Json) :
    ((gatherEntries backend sanitized targetLanguage sourceLanguage mood mode levelCodes).map
        CompEntry.level = levelCodes) ∧
    (∀ e ∈ gatherEntries backend sanitized targetLanguage sourceLanguage mood mode levelCodes,
        (e.ok = true → e.error = none ∧ ∃ r, e.result = some r ∧
            backend ⟨sanitized, sourceLanguage, targetLanguage, e.level, mood, mode⟩ = .ok r) ∧
        (e.ok = false → e.result = none ∧ ∃ er, e.error = some (pyErrStr er) ∧
            backend ⟨sanitized, sourceLanguage, targetLanguage, e.level, mood, mode⟩
              = .error er) ∧
        (e.result.isSome ↔ e.ok = true) ∧ (e.error.isSome ↔ e.ok = false)) ∧
    (∀ (backend2 : TranslateArgs → Except PyErr Json) (i : Nat) (lv : Json),
        levelCodes[i]? = some lv →
        backend ⟨sanitized, sourceLanguage, targetLanguage, lv, mood, mode⟩
          = backend2 ⟨sanitized, sourceLanguage, targetLanguage, lv, mood, mode⟩ →
        (gatherEntries backend sanitized targetLanguage sourceLanguage mood mode levelCodes)[i]?
          = (gatherEntries backend2 sanitized targetLanguage sourceLanguage mood mode
              levelCodes)[i]?) := by
  refine ⟨?_, ?_, ?_⟩
  · unfold gatherEntries
    have hlevel : ∀ lv, (translateAtLevel backend sanitized targetLanguage
        sourceLanguage mood mode lv).level = lv := by
      intro lv
      unfold translateAtLevel
      cases backend ⟨sanitized, sourceLanguage, targetLanguage, lv, mood, mode⟩ <;> rfl
    rw [List.map_map,
      show CompEntry.level ∘ translateAtLevel backend sanitized targetLanguage
          sourceLanguage mood mode = id from funext fun lv => hlevel lv,
      List.map_id]
  · intro e he
    obtain ⟨lv, -, rfl⟩ := List.mem_map.mp he
    unfold translateAtLevel
    cases hout : backend ⟨sanitized, sourceLanguage, targetLanguage, lv, mood, mode⟩ with
    | ok r =>
        refine ⟨fun _ => ⟨rfl, r, rfl, ?_⟩, fun hcon => by simp at hcon, by simp, by simp⟩
        simpa using hout
    | error er =>
        refine ⟨fun hcon => by simp at hcon, fun _ => ⟨rfl, er, rfl, ?_⟩, by simp, by simp⟩
        simpa using hout
  · intro backend2 i lv hget hsame
    unfold gatherEntries
    rw [List.getElem?_map, List.getElem?_map, hget]
    unfold translateAtLevel
    dsimp only [Option.map]
    rw [hsame]

/-- Closed instantiation of the C6 theorem. -/
theorem fanout_entries_spec_witness :
    ((gatherEntries (fun _ => .ok (.obj [("translation", .str "Bonjour")]))
        "Hello" "fra" "eng" "casual" none [.str "beginner", .str "advanced"]).map
        CompEntry.level = [.str "beginner", .str "advanced"]) ∧
    (gatherEntries (fun _ => .ok (.obj [("translation", .str "Bonjour")]))
        "Hello" "fra" "eng" "casual" none [.str "beginner", .str "advanced"])[0]?
      = (gatherEntries (fun _ => .ok (.obj [("translation", .str "Bonjour")]))
        "Hello" "fra" "eng" "casual" none [.str "beginner", .str "advanced"])[0]? :=
  ⟨(fanout_entries_spec (fun _ => .ok (.obj [("translation", .str "Bonjour")]))
      "Hello" "fra" "eng" "casual" none [.str "beginner", .str "advanced"]).1,
   (fanout_entries_spec (fun _ => .ok (.obj [("translation", .str "Bonjour")]))
      "Hello" "fra" "eng" "casual" none [.str "beginner", .str "advanced"]).2.2
      (fun _ => .ok (.obj [("translation", .str "Bonjour")])) 0 (.str "beginner") rfl rfl⟩

/-- C7: when the caller supplies explicit levels and any requested code
is unknown, `translate_compare` returns the single message listing all
invalid codes and all of the language's valid codes, and issues zero
backend translate calls. -/
theorem compare_invalid_levels_abort
    (langConfig availableLevels : Json) (codes : List Json) (codesStrs : List String)
    (backend : TranslateArgs → Except PyErr Json)
    (text targetLanguage sourceLanguage mood : String) (mode : Option String)
    (ls : List String)
    (h1 : dictGet langConfig "levels" (.arr []) = .ok availableLevels)
    (h2 : pyTruthy availableLevels = true)
    (h3 : availableCodesOf availableLevels = .ok codes)
    (h4 : allStrings codes = some codesStrs)
    (h5 : ls.filter (fun lv => !(codes.any (fun c => jsonBeq c (.str lv)))) ≠ []) :
    translateCompareTool (.ok langConfig) backend text targetLanguage sourceLanguage mood
        (some ls) mode =
      (.ok (invalidLevelsMsg
          (ls.filter (fun lv => !(codes.any (fun c => jsonBeq c (.str lv)))))
          (joinCommaStr codesStrs) targetLanguage), []) := by
  unfold translateCompareTool
  dsimp only
  rw [h1]
  dsimp only
  rw [if_neg (by rw [h2]; simp), h3]
  dsimp only
  rw [if_neg h5]
  unfold joinCommaJson
  rw [h4]

/-- Closed instantiation of the C7 theorem, mirroring the repository's
own test: requesting `["beginner", "HSK1"]` against a language whose
levels are beginner/intermediate/advanced aborts with no backend call. -/
theorem compare_invalid_levels_abort_witness :
    translateCompareTool
        (.ok (.obj [("name", .str "French"), ("code", .str "fra"),
          ("levels", .arr [.obj [("code", .str "beginner")],
            .obj [("code", .str "intermediate")], .obj [("code", .str "advanced")]]),
          ("moods", .arr [])]))
        (fun _ => .ok .null) "Hello" "fra" "eng" "casual" (some ["beginner", "HSK1"]) none =
      (.ok (invalidLevelsMsg ["HSK1"] (joinCommaStr ["beginner", "intermediate", "advanced"])
        "fra"), []) := by
  have h := compare_invalid_levels_abort
    (.obj [("name", .str "French"), ("code", .str "fra"),
      ("levels", .arr [.obj [("code", .str "beginner")],
        .obj [("code", .str "intermediate")], .obj [("code", .str "advanced")]]),
      ("moods", .arr [])])
    (.arr [.obj [("code", .str "beginner")],
      .obj [("code", .str "intermediate")], .obj [("code", .str "advanced")]])
    [.str "beginner", .str "intermediate", .str "advanced"]
    ["beginner", "intermediate", "advanced"]
    (fun _ => .ok .null) "Hello" "fra" "eng" "casual" none ["beginner", "HSK1"]
    rfl rfl rfl rfl (by decide)
  simpa using h

/-! ## Ordering of the comparison report (claim C8) -/

/-- The string content of a JSON value expected to be a string. -/
def jsonStrD : Json → String
  | .str s => s
  | _ => ""

/-- The heading line `format_comparison` prints for a level value. -/
def levelHeading (lv : Json) : List Char :=
  ("── " ++ pyCapitalize (jsonStrD lv) ++ " ──").data

/-- The effective set of level codes `translate_compare` fans out over:
all available codes when `levels` is omitted, the requested codes when
they all validate, and nothing (validation abort) otherwise. -/
def effectiveLevelCodes (codes : List Json) (levels : Option (List String)) :
    Option (List Json) :=
  match levels with
  | none => some codes
  | some ls =>
      if ls.filter (fun lv => !(codes.any (fun c => jsonBeq c (.str lv)))) = []
      then some (ls.map .str) else none

/-- Shape of a backend translation result that `format_comparison`
renders without raising: an object whose `translation` (when present)
is a string, and whose `metadata` (when present) is an object with a
numeric-or-null `processing_time_ms` (when present). -/
def wfTranslateResult : Json → Bool
  | .obj kvs =>
      (match kvs.lookup "translation" with
       | none => true
       | some (.str _) => true
       | some _ => false) &&
      (match kvs.lookup "metadata" with
       | none => true
       | some (.obj mkvs) =>
           (match mkvs.lookup "processing_time_ms" with
            | none => true
            | some .null => true
            | some (.int _) => true
            | some (.bool _) => true
            | some _ => false)
       | some _ => false)
  | _ => false

/-- The given fragments occur, in order and without overlap, inside the
string. -/
def orderedOccurs : List (List Char) → List Char → Prop
  | [], _ => True
  | h :: hs, s => ∃ pre rest, s = pre ++ h ++ rest ∧ orderedOccurs hs rest

lemma orderedOccurs_prepend (hs : List (List Char)) (w s : List Char)
    (h : orderedOccurs hs s) : orderedOccurs hs (w ++ s) := by
  cases hs with
  | nil => trivial
  | cons hd tl =>
      obtain ⟨p, r, rfl, hrest⟩ := h
      exact ⟨w ++ p, r, by simp, hrest⟩

lemma joinNlChars_cons_ne (s : List Char) (rest : List (List Char)) (h : rest ≠ []) :
    joinNlChars (s :: rest) = s ++ '\n' :: joinNlChars rest := by
  cases rest with
  | nil => exact absurd rfl h
  | cons a t => rfl

lemma joinNlChars_append_right (pre rest : List (List Char)) (hr : rest ≠ []) :
    ∃ p, joinNlChars (pre ++ rest) = p ++ joinNlChars rest := by
  induction pre with
  | nil => exact ⟨[], rfl⟩
  | cons a pre ih =>
      obtain ⟨p, hp⟩ := ih
      have hne : pre ++ rest ≠ [] := by
        intro hcon
        rcases List.append_eq_nil.mp hcon with ⟨-, h2⟩
        exact hr h2
      refine ⟨a ++ '\n' :: p, ?_⟩
      rw [List.cons_append, joinNlChars_cons_ne _ _ hne, hp]
      simp

lemma orderedOccurs_join (hs : List (List Char)) (bs : List (List (List Char)))
    (hf : List.Forall₂ (fun h b => ∃ t, b = h :: t) hs bs) :
    ∀ pre : List (List Char), orderedOccurs hs (joinNlChars (pre ++ bs.flatten)) := by
  induction hf with
  | nil => intro pre; trivial
  | @cons h b hs' bs' hhb hrest ih =>
      intro pre
      obtain ⟨t, rfl⟩ := hhb
      have hflat : ((h :: t) :: bs').flatten = h :: (t ++ bs'.flatten) := by simp
      rw [hflat]
      obtain ⟨p, hp⟩ := joinNlChars_append_right pre (h :: (t ++ bs'.flatten)) (by simp)
      rw [hp]
      by_cases hY : t ++ bs'.flatten = []
      · rw [hY]
        rcases List.append_eq_nil.mp hY with ⟨-, h2⟩
        cases hrest with
        | nil => exact ⟨p, [], by simp [joinNlChars], trivial⟩
        | cons hhb2 hrest2 =>
            obtain ⟨t2, rfl⟩ := hhb2
            simp at h2
      · rw [joinNlChars_cons_ne _ _ hY]
        refine ⟨p, '\n' :: joinNlChars (t ++ bs'.flatten), by simp, ?_⟩
        have := ih t
        exact orderedOccurs_prepend hs' ['\n'] _ this

/-- `rstrip` removes exactly a whitespace suffix. -/
lemma rdropWhile_decomp (l : List Char) :
    ∃ suf, l = pyRstripChars l ++ suf ∧ ∀ c ∈ suf, isPySpace c = true := by
  refine ⟨(List.takeWhile isPySpace l.reverse).reverse, ?_, ?_⟩
  · conv_lhs => rw [← List.reverse_reverse l,
      ← List.takeWhile_append_dropWhile (p := isPySpace) (l := l.reverse)]
    rw [List.reverse_append]
    rfl
  · intro c hc
    rw [List.mem_reverse] at hc
    exact List.mem_takeWhile_imp hc

/-- Removing an all-whitespace suffix preserves ordered occurrence of
fragments that end in a non-whitespace character. -/
lemma orderedOccurs_drop_ws_suffix (hs : List (List Char)) :
    ∀ s' w : List Char, orderedOccurs hs (s' ++ w) →
    (∀ c ∈ w, isPySpace c = true) →
    (∀ h ∈ hs, ∃ c, h.getLast? = some c ∧ isPySpace c = false) →
    orderedOccurs hs s' := by
  induction hs with
  | nil => intro s' w _ _ _; trivial
  | cons h tl ih =>
      intro s' w hocc hw hlast
      obtain ⟨pre, rest, heq, hrest⟩ := hocc
      obtain ⟨cl, hcl, hclns⟩ := hlast h (by simp)
      have hhne : h ≠ [] := by
        intro hcon
        rw [hcon] at hcl
        simp at hcl
      rcases List.append_eq_append_iff.mp heq with ⟨m, hm1, hm2⟩ | ⟨m, hm1, hm2⟩
      · -- pre ++ h = s' ++ m  and  w = m ++ rest
        have hm_nil : m = [] := by
          by_contra hmne
          have h1 : (pre ++ h).getLast? = some cl := by
            rw [List.getLast?_append, hcl]
            rfl
          have h2 : (s' ++ m).getLast? = m.getLast? := by
            rw [List.getLast?_append]
            cases hmg : m.getLast? with
            | none => exact absurd (List.getLast?_eq_none_iff.mp hmg) hmne
            | some cm => rfl
          rw [hm1] at h1
          rw [h2] at h1
          have hcm_mem := List.mem_of_getLast?_eq_some h1
          have hcm_ws : isPySpace cl = true := hw cl (by
            rw [hm2]
            exact List.mem_append_left _ hcm_mem)
          rw [hclns] at hcm_ws
          exact Bool.noConfusion hcm_ws
        subst hm_nil
        rw [List.append_nil] at hm1
        refine ⟨pre, [], by rw [List.append_nil]; exact hm1.symm, ?_⟩
        simp only [List.nil_append] at hm2
        exact ih [] rest (by rw [List.nil_append]; exact hrest)
          (by rw [hm2] at hw; intro c hc; exact hw c hc)
          (fun h2 hmem => hlast h2 (List.mem_cons_of_mem _ hmem))
      · -- s' = (pre ++ h) ++ m  and  rest = m ++ w
        refine ⟨pre, m, hm1, ?_⟩
        exact ih m w (by rw [← hm2]; exact hrest) hw
          (fun h2 hmem => hlast h2 (List.mem_cons_of_mem _ hmem))

/-- A well-formed entry renders to a block of string lines headed by its
level heading. -/
lemma entryLines_wf (e : CompEntry) (hd : String) (hlv : e.level = .str hd)
    (hok : e.ok = true → ∃ r, e.result = some r ∧ wfTranslateResult r = true)
    (herr : e.ok = false → ∃ m, e.error = some m) :
    ∃ tail : List String,
      entryLines e = .ok ((("── " ++ pyCapitalize hd ++ " ──") :: tail).map Json.str) := by
  unfold entryLines
  rw [hlv]
  dsimp only
  cases hokv : e.ok with
  | false =>
      obtain ⟨m, hm⟩ := herr hokv
      rw [if_pos rfl, hm]
      exact ⟨["  Error: " ++ m, ""], rfl⟩
  | true =>
      obtain ⟨r, hr, hwf⟩ := hok hokv
      rw [if_neg (by simp), hr]
      dsimp only
      cases r with
      | null => simp [wfTranslateResult] at hwf
      | bool b => simp [wfTranslateResult] at hwf
      | int n => simp [wfTranslateResult] at hwf
      | str s => simp [wfTranslateResult] at hwf
      | arr xs => simp [wfTranslateResult] at hwf
      | obj kvs =>
          unfold wfTranslateResult at hwf
          rw [Bool.and_eq_true] at hwf
          obtain ⟨hwf1, hwf2⟩ := hwf
          dsimp only [dictGet]
          have htrs : ∃ t : String,
              (kvs.lookup "translation").getD (.str "(no translation)") = .str t := by
            cases htr : kvs.lookup "translation" with
            | none => exact ⟨"(no translation)", rfl⟩
            | some trv =>
                rw [htr] at hwf1
                cases trv with
                | str t => exact ⟨t, rfl⟩
                | null => simp at hwf1
                | bool b => simp at hwf1
                | int n => simp at hwf1
                | arr xs => simp at hwf1
                | obj o => simp at hwf1
          obtain ⟨t, htv⟩ := htrs
          rw [htv]
          have hmds : ∃ mkvs, (kvs.lookup "metadata").getD (.obj []) = .obj mkvs ∧
              (match mkvs.lookup "processing_time_ms" with
               | none => true
               | some .null => true
               | some (.int _) => true
               | some (.bool _) => true
               | some _ => false) = true := by
            cases hmd : kvs.lookup "metadata" with
            | none => exact ⟨[], rfl, rfl⟩
            | some mdv =>
                rw [hmd] at hwf2
                cases mdv with
                | obj mkvs => exact ⟨mkvs, rfl, hwf2⟩
                | null => simp at hwf2
                | bool b => simp at hwf2
                | int n => simp at hwf2
                | str s => simp at hwf2
                | arr xs => simp at hwf2
          obtain ⟨mkvs, hmv, hptwf⟩ := hmds
          rw [hmv]
          dsimp only
          set tl := (kvs.lookup "transliteration").getD Json.null with htl
          cases hpt : mkvs.lookup "processing_time_ms" with
          | none =>
              dsimp only [Option.getD]
              by_cases htlt : pyTruthy tl = true
              · rw [if_pos htlt]
                exact ⟨[t, "  Transliteration: " ++ pyStr tl, ""], rfl⟩
              · rw [if_neg htlt]
                exact ⟨[t, ""], rfl⟩
          | some ptv =>
              dsimp only [Option.getD]
              rw [hpt] at hptwf
              cases ptv with
              | null =>
                  by_cases htlt : pyTruthy tl = true
                  · rw [if_pos htlt]
                    exact ⟨[t, "  Transliteration: " ++ pyStr tl, ""], rfl⟩
                  · rw [if_neg htlt]
                    exact ⟨[t, ""], rfl⟩
              | int n =>
                  by_cases htlt : pyTruthy tl = true
                  · rw [if_pos htlt]
                    exact ⟨[t, "  Transliteration: " ++ pyStr tl,
                      "  (" ++ toString n ++ "ms)", ""], rfl⟩
                  · rw [if_neg htlt]
                    exact ⟨[t, "  (" ++ toString n ++ "ms)", ""], rfl⟩
              | bool b =>
                  by_cases htlt : pyTruthy tl = true
                  · rw [if_pos htlt]
                    exact ⟨[t, "  Transliteration: " ++ pyStr tl,
                      "  (" ++ (if b then "1" else "0") ++ "ms)", ""], rfl⟩
                  · rw [if_neg htlt]
                    exact ⟨[t, "  (" ++ (if b then "1" else "0") ++ "ms)", ""], rfl⟩
              | str s => simp at hptwf
              | arr xs => simp at hptwf
              | obj o => simp at hptwf

lemma allStrings_map_str (l : List String) : allStrings (l.map Json.str) = some l := by
  induction l with
  | nil => rfl
  | cons s rest ih =>
      simp only [List.map_cons, allStrings, ih, Option.map_some']

/-- Collecting blocks over well-formed entries yields string blocks,
each headed by its entry's level heading. -/
lemma collectBlocks_wf (entries : List CompEntry)
    (h : ∀ e ∈ entries, ∃ hd tail, e.level = .str hd ∧
        entryLines e = .ok ((("── " ++ pyCapitalize hd ++ " ──") :: tail).map Json.str)) :
    ∃ bss : List (List String), collectBlocks entries = .ok (bss.map (List.map Json.str)) ∧
      List.Forall₂ (fun e bs => ∃ tail, bs =
        ("── " ++ pyCapitalize (jsonStrD e.level) ++ " ──") :: tail) entries bss := by
  induction entries with
  | nil => exact ⟨[], rfl, List.Forall₂.nil⟩
  | cons e rest ih =>
      obtain ⟨hd, tail, hlv, hel⟩ := h e (by simp)
      obtain ⟨bss, hcb, hf⟩ := ih (fun e2 he2 => h e2 (List.mem_cons_of_mem _ he2))
      refine ⟨(("── " ++ pyCapitalize hd ++ " ──") :: tail) :: bss, ?_, ?_⟩
      · unfold collectBlocks
        rw [hel, hcb]
        rfl
      · refine List.Forall₂.cons ⟨tail, ?_⟩ hf
        rw [hlv]
        rfl

lemma forall2_heads_data {entries : List CompEntry} {bss : List (List String)}
    (h : List.Forall₂ (fun e bs => ∃ tail, bs =
        ("── " ++ pyCapitalize (jsonStrD e.level) ++ " ──") :: tail) entries bss) :
    List.Forall₂ (fun hchars b => ∃ t, b = hchars :: t)
      (entries.map (fun e => levelHeading e.level)) (bss.map (List.map String.data)) := by
  induction h with
  | nil => exact List.Forall₂.nil
  | @cons e bs es bss2 hhead hrest ih =>
      obtain ⟨tail, rfl⟩ := hhead
      exact List.Forall₂.cons ⟨tail.map String.data, rfl⟩ ih

/-- Headings end in `'─'`, which is not whitespace. -/
lemma levelHeading_last (lv : Json) :
    ∃ c, (levelHeading lv).getLast? = some c ∧ isPySpace c = false := by
  refine ⟨'─', ?_, by decide⟩
  unfold levelHeading
  rw [String.data_append, List.getLast?_append]
  rfl

lemma comparisonHeaderLines_strs (text : String) (nameJson : Json) (mood : String)
    (mode : Option String) :
    ∃ hdrs : List String,
      comparisonHeaderLines text nameJson mood mode = hdrs.map Json.str := by
  cases mode with
  | none =>
      exact ⟨["Comparing translations of: \"" ++ text ++ "\"",
        "Language: " ++ pyStr nameJson ++ " | Mood: " ++ pyCapitalize mood, ""], rfl⟩
  | some m =>
      by_cases hm : m ≠ "" ∧ m ≠ "written"
      · refine ⟨["Comparing translations of: \"" ++ text ++ "\"",
          "Language: " ++ pyStr nameJson ++ " | Mood: " ++ pyCapitalize mood
            ++ " | Mode: " ++ pyCapitalize m, ""], ?_⟩
        unfold comparisonHeaderLines
        dsimp only
        rw [if_pos hm]
        rfl
      · refine ⟨["Comparing translations of: \"" ++ text ++ "\"",
          "Language: " ++ pyStr nameJson ++ " | Mood: " ++ pyCapitalize mood, ""], ?_⟩
        unfold comparisonHeaderLines
        dsimp only
        rw [if_neg hm]
        rfl

/-- Well-formed entries format to an `ok` string in which the level
headings occur in entry order. -/
lemma formatComparison_ok_ordered (text : String) (nameJson : Json) (mood : String)
    (mode : Option String) (entries : List CompEntry)
    (h : ∀ e ∈ entries, ∃ hd tail, e.level = .str hd ∧
        entryLines e = .ok ((("── " ++ pyCapitalize hd ++ " ──") :: tail).map Json.str)) :
    ∃ out, formatComparison text nameJson mood entries mode = .ok out ∧
      orderedOccurs (entries.map (fun e => levelHeading e.level)) out.data := by
  obtain ⟨bss, hcb, hf⟩ := collectBlocks_wf entries h
  obtain ⟨hdrs, hhdr⟩ := comparisonHeaderLines_strs text nameJson mood mode
  unfold formatComparison
  rw [hcb]
  dsimp only
  rw [hhdr]
  unfold joinNlAll
  rw [← List.map_flatten, ← List.map_append, allStrings_map_str]
  dsimp only
  refine ⟨String.mk (pyRstripChars (strJoinNl (hdrs ++ bss.flatten)).data), rfl, ?_⟩
  show orderedOccurs _ (pyRstripChars (strJoinNl (hdrs ++ bss.flatten)).data)
  have hjoin : (strJoinNl (hdrs ++ bss.flatten)).data =
      joinNlChars ((hdrs.map String.data) ++ (bss.map (List.map String.data)).flatten) := by
    show joinNlChars ((hdrs ++ bss.flatten).map String.data) = _
    rw [List.map_append, List.map_flatten]
  obtain ⟨suf, hsuf, hsufws⟩ :=
    rdropWhile_decomp (strJoinNl (hdrs ++ bss.flatten)).data
  have hocc : orderedOccurs (entries.map (fun e => levelHeading e.level))
      ((strJoinNl (hdrs ++ bss.flatten)).data) := by
    rw [hjoin]
    exact orderedOccurs_join _ _ (forall2_heads_data hf) (hdrs.map String.data)
  rw [hsuf] at hocc
  exact orderedOccurs_drop_ws_suffix _ _ _ hocc hsufws
    (by
      intro hchars hmem
      obtain ⟨e, -, rfl⟩ := List.mem_map.mp hmem
      exact levelHeading_last e.level)

lemma translateAtLevel_level (backend : TranslateArgs → Except PyErr Json)
    (sanitized targetLanguage sourceLanguage mood : String) (mode : Option String)
    (lv : Json) :
    (translateAtLevel backend sanitized targetLanguage sourceLanguage mood mode lv).level
      = lv := by
  unfold translateAtLevel
  cases backend ⟨sanitized, sourceLanguage, targetLanguage, lv, mood, mode⟩ <;> rfl

/-- The fan-out entries over string level codes with well-formed success
results format to an `ok` report whose headings follow the level
order. -/
lemma gather_entries_wf_ordered (backend : TranslateArgs → Except PyErr Json)
    (text targetLanguage sourceLanguage mood : String) (mode : Option String)
    (eff : List Json) (nameJson : Json)
    (hstr : ∀ lv ∈ eff, ∃ s, lv = Json.str s)
    (hwf : ∀ lv ∈ eff, ∀ r,
        backend ⟨sanitizeText text, sourceLanguage, targetLanguage, lv, mood, mode⟩ = .ok r →
        wfTranslateResult r = true) :
    ∃ out, formatComparison (sanitizeText text) nameJson mood
        (gatherEntries backend (sanitizeText text) targetLanguage sourceLanguage mood mode eff)
        mode = .ok out ∧
      orderedOccurs (eff.map levelHeading) out.data := by
  have hmap : (gatherEntries backend (sanitizeText text) targetLanguage sourceLanguage mood
      mode eff).map (fun e => levelHeading e.level) = eff.map levelHeading := by
    unfold gatherEntries
    rw [List.map_map]
    refine List.map_congr_left ?_
    intro lv _
    show levelHeading (translateAtLevel backend (sanitizeText text) targetLanguage
        sourceLanguage mood mode lv).level = levelHeading lv
    rw [translateAtLevel_level]
  obtain ⟨out, hout, hord⟩ := formatComparison_ok_ordered (sanitizeText text) nameJson mood
    mode (gatherEntries backend (sanitizeText text) targetLanguage sourceLanguage mood mode eff)
    (by
      intro e he
      obtain ⟨lv, hlvmem, rfl⟩ := List.mem_map.mp he
      obtain ⟨s, rfl⟩ := hstr lv hlvmem
      have hl : (translateAtLevel backend (sanitizeText text) targetLanguage sourceLanguage
          mood mode (.str s)).level = .str s := translateAtLevel_level ..
      refine ⟨s, ?_⟩
      unfold translateAtLevel at hl ⊢
      cases hbk : backend ⟨sanitizeText text, sourceLanguage, targetLanguage, .str s,
          mood, mode⟩ with
      | ok r =>
          have hwfr := hwf _ hlvmem r hbk
          obtain ⟨tail, htail⟩ := entryLines_wf ⟨.str s, true, some r, none⟩ s rfl
            (fun _ => ⟨r, rfl, hwfr⟩) (fun hcon => Bool.noConfusion hcon)
          exact ⟨tail, rfl, htail⟩
      | error er =>
          obtain ⟨tail, htail⟩ := entryLines_wf ⟨.str s, false, none, some (pyErrStr er)⟩ s rfl
            (fun hcon => Bool.noConfusion hcon) (fun _ => ⟨pyErrStr er, rfl⟩)
          exact ⟨tail, rfl, htail⟩)
  rw [hmap] at hord
  exact ⟨out, hout, hord⟩

/-- C8: `translate_compare` issues exactly one backend translate call
per effective level — all available codes when `levels` is omitted,
exactly the requested codes otherwise — and the report's level headings
appear in that order, independent of call completion order (the result
is a function of the per-level outcomes alone). -/
theorem compare_order_and_calls
    (langConfig availableLevels : Json) (codes eff : List Json)
    (backend : TranslateArgs → Except PyErr Json)
    (text targetLanguage sourceLanguage mood : String)
    (levels : Option (List String)) (mode : Option String)
    (h1 : dictGet langConfig "levels" (.arr []) = .ok availableLevels)
    (h2 : pyTruthy availableLevels = true)
    (h3 : availableCodesOf availableLevels = .ok codes)
    (heff : effectiveLevelCodes codes levels = some eff)
    (hstr : ∀ lv ∈ eff, ∃ s, lv = Json.str s)
    (hwf : ∀ lv ∈ eff, ∀ r,
        backend ⟨sanitizeText text, sourceLanguage, targetLanguage, lv, mood, mode⟩ = .ok r →
        wfTranslateResult r = true) :
    (translateCompareTool (.ok langConfig) backend text targetLanguage sourceLanguage mood
        levels mode).2 = eff ∧
    ∃ out, (translateCompareTool (.ok langConfig) backend text targetLanguage sourceLanguage
        mood levels mode).1 = .ok out ∧
      orderedOccurs (eff.map levelHeading) out.data := by
  have hobj : ∃ kvs, langConfig = .obj kvs := by
    cases langConfig with
    | obj kvs => exact ⟨kvs, rfl⟩
    | null => simp [dictGet] at h1
    | bool b => simp [dictGet] at h1
    | int n => simp [dictGet] at h1
    | str s => simp [dictGet] at h1
    | arr xs => simp [dictGet] at h1
  obtain ⟨kvs, rfl⟩ := hobj
  unfold translateCompareTool
  dsimp only
  rw [h1]
  dsimp only
  rw [if_neg (by rw [h2]; simp), h3]
  dsimp only
  cases levels with
  | none =>
      have heq : codes = eff := by simpa [effectiveLevelCodes] using heff
      subst heq
      dsimp only [dictGet]
      exact ⟨rfl, gather_entries_wf_ordered backend text targetLanguage sourceLanguage mood
        mode codes ((kvs.lookup "name").getD (.str targetLanguage)) hstr hwf⟩
  | some ls =>
      by_cases hfil : ls.filter (fun lv => !(codes.any (fun c => jsonBeq c (.str lv)))) = []
      · have heq : List.map Json.str ls = eff := by
          simpa [effectiveLevelCodes, hfil] using heff
        subst heq
        dsimp only [dictGet]
        rw [if_pos hfil]
        exact ⟨rfl, gather_entries_wf_ordered backend text targetLanguage sourceLanguage mood
          mode (ls.map Json.str) ((kvs.lookup "name").getD (.str targetLanguage)) hstr hwf⟩
      · simp [effectiveLevelCodes, hfil] at heff

/-- Closed instantiation of the C8 theorem: `levels=None` on a language
with levels `[beginner, advanced]` issues exactly those two backend
calls and produces a report whose headings follow the declared order. -/
theorem compare_order_and_calls_witness :
    (translateCompareTool
        (.ok (.obj [("name", .str "French"), ("code", .str "fra"),
          ("levels", .arr [.obj [("code", .str "beginner")], .obj [("code", .str "advanced")]]),
          ("moods", .arr [])]))
        (fun _ => .ok (.obj [("translation", .str "Bonjour"), ("transliteration", .null),
          ("metadata", .obj [("processing_time_ms", .int 800)])]))
        "Hello" "fra" "eng" "casual" none none).2
      = [Json.str "beginner", Json.str "advanced"] ∧
    ∃ out, (translateCompareTool
        (.ok (.obj [("name", .str "French"), ("code", .str "fra"),
          ("levels", .arr [.obj [("code", .str "beginner")], .obj [("code", .str "advanced")]]),
          ("moods", .arr [])]))
        (fun _ => .ok (.obj [("translation", .str "Bonjour"), ("transliteration", .null),
          ("metadata", .obj [("processing_time_ms", .int 800)])]))
        "Hello" "fra" "eng" "casual" none none).1 = .ok out ∧
      orderedOccurs ([Json.str "beginner", Json.str "advanced"].map levelHeading) out.data :=
  compare_order_and_calls
    (.obj [("name", .str "French"), ("code", .str "fra"),
      ("levels", .arr [.obj [("code", .str "beginner")], .obj [("code", .str "advanced")]]),
      ("moods", .arr [])])
    (.arr [.obj [("code", .str "beginner")], .obj [("code", .str "advanced")]])
    [Json.str "beginner", Json.str "advanced"]
    [Json.str "beginner", Json.str "advanced"]
    (fun _ => .ok (.obj [("translation", .str "Bonjour"), ("transliteration", .null),
      ("metadata", .obj [("processing_time_ms", .int 800)])]))
    "Hello" "fra" "eng" "casual" none none
    rfl rfl rfl rfl
    (by
      intro lv hlv
      rcases List.mem_cons.mp hlv with rfl | hlv2
      · exact ⟨"beginner", rfl⟩
      · rcases List.mem_cons.mp hlv2 with rfl | hlv3
        · exact ⟨"advanced", rfl⟩
        · exact absurd hlv3 (List.not_mem_nil _))
    (by
      intro lv _ r hr
      injection hr with h
      rw [← h]
      rfl)
